import Mathlib

/-!
Shallow embedding of the streaming qcow2 writer (src/qcow2.rs, src/main.rs).

The planner (`StreamingQcow2Writer.new` / `mkWriter`) and the binary encoders
(`header_bytes`, `refcount_table_bytes`, `mapping_table_bytes`, `copy_data`)
are translated directly from the Rust source.  Machine integers are modelled
as `Nat`; the two `as u32` casts in the constructor are modelled with
`% 2 ^ 32`, and the single place where a `u64` subtraction can wrap
(`to_cluster - 1` when `to_cluster = 0`) is modelled explicitly in
`next_last_cluster` (release-mode wrapping semantics).
-/

namespace StreamingQcow2

/-- `const CLUSTER_SIZE: u64 = 65536;` -/
def CLUSTER_SIZE : Nat := 65536

/-- `fn divide_and_round_up(a: u64, b: u64) -> u64 { (a + b - 1) / b }` -/
def divide_and_round_up (a b : Nat) : Nat := (a + b - 1) / b

/-- A Rust `Range<u64>`; `stop` models the Rust field `end` (a Lean keyword). -/
structure Range64 where
  start : Nat
  stop : Nat
deriving DecidableEq

/-- The planner's only failure mode: `panic!("Data clusters are not sorted")`. -/
inductive PlanError where
  | notSorted
deriving DecidableEq

/-- The value stored by `last_cluster = Some(to_cluster - 1)`: `u64` subtraction
wraps to `2^64 - 1` when `to_cluster = 0` (which the code never guards against). -/
def next_last_cluster (r : Range64) : Nat :=
  let to_cluster := divide_and_round_up r.stop CLUSTER_SIZE
  if to_cluster = 0 then 2 ^ 64 - 1 else to_cluster - 1

/-- The cluster-list construction loop of `StreamingQcow2Writer::new`
(qcow2.rs lines 26-48), with the running `last_cluster` as second argument. -/
def buildClusters : List Range64 → Option Nat → Except PlanError (List Nat)
  | [], _ => .ok []
  | r :: rs, last =>
    let from_cluster := r.start / CLUSTER_SIZE
    let to_cluster := divide_and_round_up r.stop CLUSTER_SIZE
    match last with
    | some lc =>
      if from_cluster < lc then .error .notSorted
      else
        let f := if from_cluster = lc then from_cluster + 1 else from_cluster
        match buildClusters rs (some (next_last_cluster r)) with
        | .error e => .error e
        | .ok rest => .ok (List.range' f (to_cluster - f) ++ rest)
    | none =>
      match buildClusters rs (some (next_last_cluster r)) with
      | .error e => .error e
      | .ok rest => .ok (List.range' from_cluster (to_cluster - from_cluster) ++ rest)

/-- `let guest_clusters = divide_and_round_up(input_size, CLUSTER_SIZE);` -/
def guestClusters (input_size : Nat) : Nat := divide_and_round_up input_size CLUSTER_SIZE

/-- `let l2_tables = divide_and_round_up(guest_clusters * 8, CLUSTER_SIZE);` -/
def l2Tables (input_size : Nat) : Nat :=
  divide_and_round_up (guestClusters input_size * 8) CLUSTER_SIZE

/-- `let l1_clusters = divide_and_round_up(l2_tables * 8, CLUSTER_SIZE);` -/
def l1Clusters (input_size : Nat) : Nat :=
  divide_and_round_up (l2Tables input_size * 8) CLUSTER_SIZE

/-- The part of `total_clusters` that does not depend on the refcount sizing:
`1 (header) + l1_clusters + l2_tables + data_clusters.len()`. -/
def fixedClusters (input_size len : Nat) : Nat :=
  1 + l1Clusters input_size + l2Tables input_size + len

/-- The refcount sizing loop of `StreamingQcow2Writer::new` (qcow2.rs lines
59-75), with explicit fuel.  Arguments: fixed part of the cluster count, fuel,
`refcount_blocks`, `refcount_table_clusters`.  `refcountLoop_spec` below shows
that fuel `fixedClusters + 3` always suffices to reach the fixed point, so the
fuel is not an extra termination assumption. -/
def refcountLoop (fixed : Nat) : Nat → Nat → Nat → Nat × Nat
  | 0, refcount_blocks, refcount_table_clusters =>
    (refcount_blocks, refcount_table_clusters)
  | fuel + 1, refcount_blocks, refcount_table_clusters =>
    let total_clusters := fixed + refcount_table_clusters + refcount_blocks
    let new_refcount_blocks := divide_and_round_up (total_clusters * 2) CLUSTER_SIZE
    if new_refcount_blocks = refcount_blocks then
      (refcount_blocks, refcount_table_clusters)
    else
      refcountLoop fixed fuel new_refcount_blocks
        (divide_and_round_up (new_refcount_blocks * 8) CLUSTER_SIZE)

/-- `struct StreamingQcow2Writer`.  The two `u32` fields hold the values of the
`as u32` casts in the constructor. -/
structure StreamingQcow2Writer where
  input_size : Nat
  l1_clusters : Nat
  l1_offset : Nat
  refcount_table_clusters : Nat
  first_data_cluster : Nat
  data_clusters : List Nat
deriving DecidableEq

/-- Lines 50-97 of `StreamingQcow2Writer::new`: everything after the cluster
list has been built. -/
def mkWriter (input_size : Nat) (data_clusters : List Nat) : StreamingQcow2Writer :=
  let fixed := fixedClusters input_size data_clusters.length
  let p := refcountLoop fixed (fixed + 3) 1 1
  { input_size := input_size
    l1_clusters := l1Clusters input_size % 2 ^ 32
    l1_offset := CLUSTER_SIZE * (1 + p.2 + p.1)
    refcount_table_clusters := p.2 % 2 ^ 32
    first_data_cluster := 1 + p.2 + p.1 + l1Clusters input_size + l2Tables input_size
    data_clusters := data_clusters }

/-- `StreamingQcow2Writer::new` (qcow2.rs lines 24-98); the `panic!` is
modelled as an `Except.error`. -/
def StreamingQcow2Writer.new (input_size : Nat) (ranges : List Range64) :
    Except PlanError StreamingQcow2Writer :=
  (buildClusters ranges none).map (mkWriter input_size)

/-- `fn total_clusters(&self) -> u64` -/
def StreamingQcow2Writer.total_clusters (w : StreamingQcow2Writer) : Nat :=
  w.first_data_cluster + w.data_clusters.length

/-- `pub fn file_size(&self) -> u64` -/
def StreamingQcow2Writer.file_size (w : StreamingQcow2Writer) : Nat :=
  CLUSTER_SIZE * w.total_clusters

/-- `pub fn total_guest_clusters(&self) -> u64` -/
def StreamingQcow2Writer.total_guest_clusters (w : StreamingQcow2Writer) : Nat :=
  divide_and_round_up w.input_size CLUSTER_SIZE

/-- Big-endian bytes of a `u16`. -/
def be16 (v : Nat) : List Nat := [v / 2 ^ 8 % 256, v % 256]

/-- Big-endian bytes of a `u32`. -/
def be32 (v : Nat) : List Nat :=
  [v / 2 ^ 24 % 256, v / 2 ^ 16 % 256, v / 2 ^ 8 % 256, v % 256]

/-- Big-endian bytes of a `u64`. -/
def be64 (v : Nat) : List Nat :=
  [v / 2 ^ 56 % 256, v / 2 ^ 48 % 256, v / 2 ^ 40 % 256, v / 2 ^ 32 % 256,
   v / 2 ^ 24 % 256, v / 2 ^ 16 % 256, v / 2 ^ 8 % 256, v % 256]

/-- The L1-table-size header field (qcow2.rs lines 136-138): note the plain
(floor) division `self.total_guest_clusters() / l2_entries_per_cluster`,
written as a `u32`. -/
def header_l1_size (w : StreamingQcow2Writer) : Nat :=
  w.total_guest_clusters / (CLUSTER_SIZE / 8) % 2 ^ 32

/-- The header cluster produced by the first part of `write_header`
(qcow2.rs lines 112-155): 72 bytes of fields, zero-padded to one cluster. -/
def header_bytes (w : StreamingQcow2Writer) : List Nat :=
  [0x51, 0x46, 0x49, 0xFB]
  ++ be32 2
  ++ be64 0
  ++ be32 0
  ++ be32 16
  ++ be64 w.input_size
  ++ be32 0
  ++ be32 (header_l1_size w)
  ++ be64 w.l1_offset
  ++ be64 CLUSTER_SIZE
  ++ be32 w.refcount_table_clusters
  ++ be32 0
  ++ be64 0
  ++ List.replicate (CLUSTER_SIZE - 72) 0

/-- Number of zero entries the encoders append after `count` entries of a
table with `per` entries per cluster (`if last_cluster_entries > 0 { ... }`). -/
def padEntries (count per : Nat) : Nat :=
  if count % per = 0 then 0 else per - count % per

/-- The refcount-table entries (`u64` values) written by the first block of
`write_refcount_table` (qcow2.rs lines 167-183). -/
def refcount_table_entries (w : StreamingQcow2Writer) : List Nat :=
  let refcount_blocks := divide_and_round_up (w.total_clusters * 2) CLUSTER_SIZE
  (List.range refcount_blocks).map
    (fun block => CLUSTER_SIZE * (1 + w.refcount_table_clusters + block))
  ++ List.replicate (padEntries refcount_blocks (CLUSTER_SIZE / 8)) 0

/-- The refcount-block entries (`u16` values) written by the second block of
`write_refcount_table` (qcow2.rs lines 185-197). -/
def refcount_block_entries (w : StreamingQcow2Writer) : List Nat :=
  List.replicate w.total_clusters 1
  ++ List.replicate (padEntries w.total_clusters (CLUSTER_SIZE / 2)) 0

/-- `fn write_refcount_table` as a byte stream. -/
def refcount_table_bytes (w : StreamingQcow2Writer) : List Nat :=
  ((refcount_table_entries w).map be64).flatten
  ++ ((refcount_block_entries w).map be16).flatten

/-- The guest-to-host `HashMap` of `write_mapping_table` (qcow2.rs lines
204-207): `mapping.insert(guest, host + first_data_cluster)` for each
`(host, guest)` in `data_clusters.iter().enumerate()`; a later insert for the
same guest overwrites an earlier one, so the lookup returns the last matching
position. -/
def mappingLookup (data_clusters : List Nat) (first_data_cluster guest : Nat) :
    Option Nat :=
  (List.range data_clusters.length).foldl
    (fun acc host =>
      if data_clusters[host]? = some guest then some (host + first_data_cluster) else acc)
    none

/-- The L1-table entries (`u64` values) written by `write_mapping_table`
(qcow2.rs lines 210-227). -/
def l1_table_entries (w : StreamingQcow2Writer) : List Nat :=
  let l1_entries := divide_and_round_up w.total_guest_clusters (CLUSTER_SIZE / 8)
  (List.range l1_entries).map
    (fun entry =>
      (w.l1_offset + w.l1_clusters * CLUSTER_SIZE + entry * CLUSTER_SIZE) ||| (1 <<< 63))
  ++ List.replicate (padEntries l1_entries (CLUSTER_SIZE / 8)) 0

/-- One L2 entry (qcow2.rs lines 233-243). -/
def l2_entry (w : StreamingQcow2Writer) (guest : Nat) : Nat :=
  match mappingLookup w.data_clusters w.first_data_cluster guest with
  | none => 0
  | some host_cluster => host_cluster * CLUSTER_SIZE ||| (0 <<< 62) ||| (1 <<< 63)

/-- The L2-table entries (`u64` values) written by `write_mapping_table`
(qcow2.rs lines 231-254). -/
def l2_table_entries (w : StreamingQcow2Writer) : List Nat :=
  (List.range w.total_guest_clusters).map (l2_entry w)
  ++ List.replicate (padEntries w.total_guest_clusters (CLUSTER_SIZE / 8)) 0

/-- `fn write_mapping_table` as a byte stream. -/
def mapping_table_bytes (w : StreamingQcow2Writer) : List Nat :=
  ((l1_table_entries w).map be64).flatten
  ++ ((l2_table_entries w).map be64).flatten

/-- One iteration of the `copy_data` loop (qcow2.rs lines 262-265): seek the
source to `cluster * CLUSTER_SIZE`, read into a zero-initialised cluster-sized
buffer (a short read leaves the tail zero), write the whole buffer. -/
def readCluster (src : List Nat) (cluster : Nat) : List Nat :=
  let data := (src.drop (cluster * CLUSTER_SIZE)).take CLUSTER_SIZE
  data ++ List.replicate (CLUSTER_SIZE - data.length) 0

/-- `pub fn copy_data`: the bytes appended to the output for the whole
data-cluster list, in list order (the output is never seeked). -/
def copy_data (w : StreamingQcow2Writer) (src : List Nat) : List Nat :=
  (w.data_clusters.map (readCluster src)).flatten

/-- Everything `write_header` writes: header cluster, then refcount table and
blocks, then L1 and L2 tables (qcow2.rs lines 157-159). -/
def write_header_bytes (w : StreamingQcow2Writer) : List Nat :=
  header_bytes w ++ refcount_table_bytes w ++ mapping_table_bytes w

/-- The full output stream: metadata followed by the data clusters, exactly as
`main` emits it (`write_header` then `copy_data`). -/
def output_bytes (w : StreamingQcow2Writer) (src : List Nat) : List Nat :=
  write_header_bytes w ++ copy_data w src

/-- The validity predicate of the claims: every range nonempty (`start < end`),
and consecutive ranges sorted with no overlap beyond the one-cluster boundary
allowance — i.e. exactly the condition under which the planner's
`from_cluster < last_cluster` check never fires. -/
def validRanges : List Range64 → Option Nat → Bool
  | [], _ => true
  | r :: rs, last =>
    decide (r.start < r.stop) &&
    (match last with
     | none => true
     | some lc => decide (lc ≤ r.start / CLUSTER_SIZE)) &&
    validRanges rs (some (divide_and_round_up r.stop CLUSTER_SIZE - 1))

/-- Some range starts in a cluster strictly before the previous range's last
covered cluster (true overlap beyond the shared-boundary allowance). -/
def hasOverlap : List Range64 → Bool
  | r1 :: r2 :: rs =>
    decide (r2.start / CLUSTER_SIZE < divide_and_round_up r1.stop CLUSTER_SIZE - 1)
    || hasOverlap (r2 :: rs)
  | _ => false

/-- The value `refcount_blocks` takes after one loop iteration, as a function
of its previous value (using the invariant
`refcount_table_clusters = divide_and_round_up (refcount_blocks * 8) CLUSTER_SIZE`). -/
def stepRB (fixed rb : Nat) : Nat :=
  divide_and_round_up
    ((fixed + divide_and_round_up (rb * 8) CLUSTER_SIZE + rb) * 2) CLUSTER_SIZE

theorem stepRB_mono {fixed a b : Nat} (h : a ≤ b) : stepRB fixed a ≤ stepRB fixed b := by
  simp only [stepRB, divide_and_round_up, CLUSTER_SIZE]
  omega

theorem stepRB_bound {fixed rb : Nat} (h : rb ≤ fixed + 2) : stepRB fixed rb ≤ fixed + 2 := by
  simp only [stepRB, divide_and_round_up, CLUSTER_SIZE]
  omega

theorem one_le_stepRB (fixed : Nat) : 1 ≤ stepRB fixed 1 := by
  simp only [stepRB, divide_and_round_up, CLUSTER_SIZE]
  omega

theorem refcountLoop_go (fixed : Nat) : ∀ fuel rb : Nat, 1 ≤ rb → rb ≤ fixed + 2 →
    rb ≤ stepRB fixed rb → fixed + 3 - rb ≤ fuel →
    ∃ rb2 rt2,
      (∀ fuel2, fixed + 3 - rb ≤ fuel2 →
        refcountLoop fixed fuel2 rb (divide_and_round_up (rb * 8) CLUSTER_SIZE) = (rb2, rt2)) ∧
      rt2 = divide_and_round_up (rb2 * 8) CLUSTER_SIZE ∧
      stepRB fixed rb2 = rb2 ∧ 1 ≤ rb2 ∧ rb2 ≤ fixed + 2 := by
  intro fuel
  induction fuel with
  | zero => intro rb h1 h2 _ hf; omega
  | succ f ih =>
    intro rb h1 h2 hstep hf
    by_cases hfix : stepRB fixed rb = rb
    · refine ⟨rb, divide_and_round_up (rb * 8) CLUSTER_SIZE, ?_, rfl, hfix, h1, h2⟩
      intro fuel2 hf2
      obtain ⟨k, rfl⟩ : ∃ k, fuel2 = k + 1 := ⟨fuel2 - 1, by omega⟩
      have hfix' : divide_and_round_up
          ((fixed + divide_and_round_up (rb * 8) CLUSTER_SIZE + rb) * 2) CLUSTER_SIZE = rb := hfix
      simp only [refcountLoop]
      rw [if_pos hfix']
    · have hlt : rb < stepRB fixed rb := lt_of_le_of_ne hstep (fun h => hfix h.symm)
      obtain ⟨rb2, rt2, hfuel2, hrt, hfp, h12, hb22⟩ :=
        ih (stepRB fixed rb) (by omega) (stepRB_bound h2) (stepRB_mono hlt.le) (by omega)
      refine ⟨rb2, rt2, ?_, hrt, hfp, h12, hb22⟩
      intro fuel2 hf2
      obtain ⟨k, rfl⟩ : ∃ k, fuel2 = k + 1 := ⟨fuel2 - 1, by omega⟩
      have hfix' : ¬ divide_and_round_up
          ((fixed + divide_and_round_up (rb * 8) CLUSTER_SIZE + rb) * 2) CLUSTER_SIZE = rb := hfix
      simp only [refcountLoop]
      rw [if_neg hfix']
      exact hfuel2 k (by omega)

/-- The refcount sizing loop always reaches a genuine fixed point within
`fixed + 3` iterations, and the result is independent of any larger fuel. -/
theorem refcountLoop_spec (fixed : Nat) :
    ∃ rb rt,
      (∀ fuel, fixed + 3 ≤ fuel → refcountLoop fixed fuel 1 1 = (rb, rt)) ∧
      rt = divide_and_round_up (rb * 8) CLUSTER_SIZE ∧
      divide_and_round_up ((fixed + rt + rb) * 2) CLUSTER_SIZE = rb ∧
      1 ≤ rb ∧ rb ≤ fixed + 2 := by
  obtain ⟨rb2, rt2, hfuel, hrt, hfp, h1, h2⟩ :=
    refcountLoop_go fixed (fixed + 3) 1 le_rfl (by omega) (one_le_stepRB fixed) (by omega)
  refine ⟨rb2, rt2, ?_, hrt, ?_, h1, h2⟩
  · intro fuel hf
    have h8 : divide_and_round_up (1 * 8) CLUSTER_SIZE = 1 := by decide
    have h := hfuel fuel (by omega)
    rwa [h8] at h
  · rw [hrt]
    exact hfp

/-- Field-level characterisation of the planner's sizing phase. -/
theorem mkWriter_eq (N : Nat) (dcs : List Nat) :
    ∃ rb rt,
      rt = divide_and_round_up (rb * 8) CLUSTER_SIZE ∧
      divide_and_round_up ((fixedClusters N dcs.length + rt + rb) * 2) CLUSTER_SIZE = rb ∧
      1 ≤ rb ∧
      mkWriter N dcs =
        { input_size := N
          l1_clusters := l1Clusters N % 2 ^ 32
          l1_offset := CLUSTER_SIZE * (1 + rt + rb)
          refcount_table_clusters := rt % 2 ^ 32
          first_data_cluster := 1 + rt + rb + l1Clusters N + l2Tables N
          data_clusters := dcs } := by
  obtain ⟨rb, rt, hfuel, hrt, hfp, h1, _⟩ := refcountLoop_spec (fixedClusters N dcs.length)
  refine ⟨rb, rt, hrt, hfp, h1, ?_⟩
  have h := hfuel (fixedClusters N dcs.length + 3) le_rfl
  simp only [mkWriter]
  rw [h]

theorem new_ok_iff {N : Nat} {ranges : List Range64} {w : StreamingQcow2Writer} :
    StreamingQcow2Writer.new N ranges = .ok w ↔
      ∃ dcs, buildClusters ranges none = .ok dcs ∧ w = mkWriter N dcs := by
  unfold StreamingQcow2Writer.new
  cases h : buildClusters ranges none with
  | error e =>
    simp only [Except.map]
    constructor
    · intro hc; cases hc
    · rintro ⟨dcs, hc, -⟩; cases hc
  | ok dcs =>
    simp only [Except.map]
    constructor
    · intro hc
      cases hc
      exact ⟨dcs, rfl, rfl⟩
    · rintro ⟨dcs2, hc, rfl⟩
      cases hc
      rfl

theorem pad_eq_8192 (c : Nat) :
    c + padEntries c (CLUSTER_SIZE / 8) =
      CLUSTER_SIZE / 8 * divide_and_round_up c (CLUSTER_SIZE / 8) := by
  simp only [padEntries, divide_and_round_up, CLUSTER_SIZE]
  split <;> omega

theorem pad_eq_32768 (c : Nat) :
    c + padEntries c (CLUSTER_SIZE / 2) =
      CLUSTER_SIZE / 2 * divide_and_round_up c (CLUSTER_SIZE / 2) := by
  simp only [padEntries, divide_and_round_up, CLUSTER_SIZE]
  split <;> omega

theorem dru_mul8 (a : Nat) :
    divide_and_round_up (a * 8) CLUSTER_SIZE = divide_and_round_up a (CLUSTER_SIZE / 8) := by
  simp only [divide_and_round_up, CLUSTER_SIZE]
  omega

theorem dru_mul2 (a : Nat) :
    divide_and_round_up (a * 2) CLUSTER_SIZE = divide_and_round_up a (CLUSTER_SIZE / 2) := by
  simp only [divide_and_round_up, CLUSTER_SIZE]
  omega

theorem flatten_map_length (enc : Nat → List Nat) (k : Nat) (h : ∀ x, (enc x).length = k) :
    ∀ l : List Nat, ((l.map enc).flatten).length = k * l.length := by
  intro l
  induction l with
  | nil => simp
  | cons a t ih =>
    simp only [List.map_cons, List.flatten_cons, List.length_append, h a, ih, List.length_cons]
    ring

theorem header_bytes_length (w : StreamingQcow2Writer) :
    (header_bytes w).length = CLUSTER_SIZE := by
  unfold header_bytes be32 be64
  simp only [List.length_append, List.length_cons, List.length_nil, List.length_replicate]
  simp only [CLUSTER_SIZE]

theorem refcount_table_bytes_length (w : StreamingQcow2Writer) :
    (refcount_table_bytes w).length =
      8 * (divide_and_round_up (w.total_clusters * 2) CLUSTER_SIZE
           + padEntries (divide_and_round_up (w.total_clusters * 2) CLUSTER_SIZE)
               (CLUSTER_SIZE / 8))
      + 2 * (w.total_clusters + padEntries w.total_clusters (CLUSTER_SIZE / 2)) := by
  unfold refcount_table_bytes refcount_table_entries refcount_block_entries
  rw [List.length_append, flatten_map_length be64 8 (fun v => rfl),
    flatten_map_length be16 2 (fun v => rfl)]
  simp only [List.length_append, List.length_map, List.length_range, List.length_replicate]

theorem mapping_table_bytes_length (w : StreamingQcow2Writer) :
    (mapping_table_bytes w).length =
      8 * (divide_and_round_up w.total_guest_clusters (CLUSTER_SIZE / 8)
           + padEntries (divide_and_round_up w.total_guest_clusters (CLUSTER_SIZE / 8))
               (CLUSTER_SIZE / 8))
      + 8 * (w.total_guest_clusters + padEntries w.total_guest_clusters (CLUSTER_SIZE / 8)) := by
  unfold mapping_table_bytes l1_table_entries l2_table_entries
  rw [List.length_append, flatten_map_length be64 8 (fun v => rfl),
    flatten_map_length be64 8 (fun v => rfl)]
  simp only [List.length_append, List.length_map, List.length_range, List.length_replicate]

theorem readCluster_length (src : List Nat) (cluster : Nat) :
    (readCluster src cluster).length = CLUSTER_SIZE := by
  unfold readCluster
  simp only [List.length_append, List.length_take, List.length_replicate, List.length_drop]
  omega

theorem copy_data_length (w : StreamingQcow2Writer) (src : List Nat) :
    (copy_data w src).length = CLUSTER_SIZE * w.data_clusters.length := by
  unfold copy_data
  exact flatten_map_length (readCluster src) CLUSTER_SIZE (readCluster_length src) _

theorem refcount_region_size (w : StreamingQcow2Writer) (rb rt : Nat)
    (hfp : divide_and_round_up (w.total_clusters * 2) CLUSTER_SIZE = rb)
    (hrt : rt = divide_and_round_up (rb * 8) CLUSTER_SIZE) :
    (refcount_table_bytes w).length = CLUSTER_SIZE * (rt + rb) := by
  rw [refcount_table_bytes_length w, hfp]
  have h1 := pad_eq_8192 rb
  have h2 := pad_eq_32768 w.total_clusters
  have h3 : divide_and_round_up rb (CLUSTER_SIZE / 8) = rt := by rw [hrt, dru_mul8]
  have h4 : divide_and_round_up w.total_clusters (CLUSTER_SIZE / 2) = rb := by
    rw [← dru_mul2, hfp]
  simp only [CLUSTER_SIZE] at h1 h2 h3 h4 ⊢
  omega

theorem mapping_region_size (w : StreamingQcow2Writer) :
    (mapping_table_bytes w).length =
      CLUSTER_SIZE * (l1Clusters w.input_size + l2Tables w.input_size) := by
  rw [mapping_table_bytes_length w]
  have h1 := pad_eq_8192 (divide_and_round_up w.total_guest_clusters (CLUSTER_SIZE / 8))
  have h2 := pad_eq_8192 w.total_guest_clusters
  have h3 : l2Tables w.input_size =
      divide_and_round_up w.total_guest_clusters (CLUSTER_SIZE / 8) := by
    unfold l2Tables guestClusters StreamingQcow2Writer.total_guest_clusters
    rw [dru_mul8]
  have h4 : l1Clusters w.input_size =
      divide_and_round_up
        (divide_and_round_up w.total_guest_clusters (CLUSTER_SIZE / 8)) (CLUSTER_SIZE / 8) := by
    unfold l1Clusters
    rw [dru_mul8, h3]
  simp only [CLUSTER_SIZE] at h1 h2 h3 h4 ⊢
  omega

/-- C2: for every plan produced by the planner, the bytes emitted by
`write_header` (header cluster, refcount table, refcount blocks, L1 table, L2
tables, including all zero padding) followed by `copy_data` (one full cluster
per data-cluster-list entry) total exactly
`file_size() = CLUSTER_SIZE * (first_data_cluster + |data_clusters|)`.
The metadata takes exactly `first_data_cluster` clusters and each region is a
whole number of clusters, so the regions — laid out in that order by
construction of the output stream — are cluster-aligned with no gaps. -/
theorem c2_total_output_size (N : Nat) (ranges : List Range64)
    (w : StreamingQcow2Writer) (src : List Nat)
    (h : StreamingQcow2Writer.new N ranges = .ok w) :
    (output_bytes w src).length = w.file_size ∧
    w.file_size = CLUSTER_SIZE * (w.first_data_cluster + w.data_clusters.length) ∧
    (header_bytes w).length = CLUSTER_SIZE ∧
    CLUSTER_SIZE ∣ (refcount_table_bytes w).length ∧
    CLUSTER_SIZE ∣ (mapping_table_bytes w).length ∧
    (write_header_bytes w).length = CLUSTER_SIZE * w.first_data_cluster ∧
    (copy_data w src).length = CLUSTER_SIZE * w.data_clusters.length := by
  obtain ⟨dcs, hbc, rfl⟩ := new_ok_iff.mp h
  obtain ⟨rb, rt, hrt, hfp, hrb1, heq⟩ := mkWriter_eq N dcs
  have hin : (mkWriter N dcs).input_size = N := by rw [heq]
  have hdata : (mkWriter N dcs).data_clusters = dcs := by rw [heq]
  have hfdc : (mkWriter N dcs).first_data_cluster
      = 1 + rt + rb + l1Clusters N + l2Tables N := by rw [heq]
  have hT : (mkWriter N dcs).total_clusters = fixedClusters N dcs.length + rt + rb := by
    unfold StreamingQcow2Writer.total_clusters fixedClusters
    rw [hfdc, hdata]
    omega
  have hfp2 : divide_and_round_up ((mkWriter N dcs).total_clusters * 2) CLUSTER_SIZE = rb := by
    rw [hT]; exact hfp
  have hH := header_bytes_length (mkWriter N dcs)
  have hR := refcount_region_size (mkWriter N dcs) rb rt hfp2 hrt
  have hM : (mapping_table_bytes (mkWriter N dcs)).length
      = CLUSTER_SIZE * (l1Clusters N + l2Tables N) := by
    have hm := mapping_region_size (mkWriter N dcs)
    rwa [hin] at hm
  have hC : (copy_data (mkWriter N dcs) src).length = CLUSTER_SIZE * dcs.length := by
    rw [copy_data_length, hdata]
  have hW : (write_header_bytes (mkWriter N dcs)).length
      = CLUSTER_SIZE * (mkWriter N dcs).first_data_cluster := by
    unfold write_header_bytes
    simp only [List.length_append]
    rw [hH, hR, hM, hfdc]
    simp only [CLUSTER_SIZE]
    omega
  refine ⟨?_, rfl, hH, ⟨rt + rb, hR⟩, ⟨l1Clusters N + l2Tables N, hM⟩, hW,
    by rw [hC, hdata]⟩
  unfold output_bytes
  simp only [List.length_append]
  rw [hW, hC]
  unfold StreamingQcow2Writer.file_size StreamingQcow2Writer.total_clusters
  rw [hdata]
  simp only [CLUSTER_SIZE]
  omega

/-- Witness for C2 at the concrete plan for a zero-length input. -/
theorem c2_total_output_size_witness :
    (output_bytes (mkWriter 0 []) []).length = (mkWriter 0 []).file_size :=
  (c2_total_output_size 0 [⟨0, 0⟩] (mkWriter 0 []) [] (by rfl)).1

theorem to_cluster_ge_one {r : Range64} (h : r.start < r.stop) :
    1 ≤ divide_and_round_up r.stop CLUSTER_SIZE := by
  simp only [divide_and_round_up, CLUSTER_SIZE]
  omega

theorem next_last_cluster_eq {r : Range64} (h : r.start < r.stop) :
    next_last_cluster r = divide_and_round_up r.stop CLUSTER_SIZE - 1 := by
  have h1 := to_cluster_ge_one h
  unfold next_last_cluster
  rw [if_neg (by omega)]

theorem from_le_next {r : Range64} (h : r.start < r.stop) :
    r.start / CLUSTER_SIZE ≤ divide_and_round_up r.stop CLUSTER_SIZE - 1 := by
  simp only [divide_and_round_up, CLUSTER_SIZE]
  omega

/-- A successful planning run over nonempty ranges yields a strictly
increasing cluster list, all of whose elements exceed the incoming
`last_cluster`. -/
theorem buildClusters_sorted : ∀ (rs : List Range64) (last : Option Nat) (l : List Nat),
    (∀ r ∈ rs, r.start < r.stop) → buildClusters rs last = .ok l →
    l.Pairwise (· < ·) ∧ ∀ x ∈ l, ∀ lc, last = some lc → lc < x := by
  intro rs
  induction rs with
  | nil =>
    intro last l _ h
    simp only [buildClusters] at h
    cases h
    exact ⟨List.Pairwise.nil, by simp⟩
  | cons r rs ih =>
    intro last l hv h
    have hr : r.start < r.stop := hv r (by simp)
    have hv' : ∀ r' ∈ rs, r'.start < r'.stop := fun r' hr' => hv r' (by simp [hr'])
    have hto := to_cluster_ge_one hr
    have hft := from_le_next hr
    cases last with
    | none =>
      simp only [buildClusters] at h
      cases e : buildClusters rs (some (next_last_cluster r)) with
      | error e' => rw [e] at h; cases h
      | ok rest =>
        rw [e] at h
        simp only at h
        cases h
        obtain ⟨hp, hgt⟩ := ih (some (next_last_cluster r)) rest hv' e
        have hgt' : ∀ y ∈ rest, divide_and_round_up r.stop CLUSTER_SIZE - 1 < y := by
          intro y hy
          have := hgt y hy (next_last_cluster r) rfl
          rwa [next_last_cluster_eq hr] at this
        refine ⟨?_, by intro x hx lc hlc; cases hlc⟩
        rw [List.pairwise_append]
        refine ⟨List.pairwise_lt_range' _ _, hp, ?_⟩
        intro x hx y hy
        rw [List.mem_range'_1] at hx
        have := hgt' y hy
        omega
    | some lc =>
      simp only [buildClusters] at h
      by_cases hcl : r.start / CLUSTER_SIZE < lc
      · rw [if_pos hcl] at h; cases h
      · rw [if_neg hcl] at h
        cases e : buildClusters rs (some (next_last_cluster r)) with
        | error e' => rw [e] at h; cases h
        | ok rest =>
          rw [e] at h
          simp only at h
          obtain ⟨hp, hgt⟩ := ih (some (next_last_cluster r)) rest hv' e
          have hgt' : ∀ y ∈ rest, divide_and_round_up r.stop CLUSTER_SIZE - 1 < y := by
            intro y hy
            have := hgt y hy (next_last_cluster r) rfl
            rwa [next_last_cluster_eq hr] at this
          by_cases hfe : r.start / CLUSTER_SIZE = lc
          · rw [if_pos hfe] at h
            cases h
            constructor
            · rw [List.pairwise_append]
              refine ⟨List.pairwise_lt_range' _ _, hp, ?_⟩
              intro x hx y hy
              rw [List.mem_range'_1] at hx
              have := hgt' y hy
              omega
            · intro x hx lc' hlc'
              cases hlc'
              rcases List.mem_append.mp hx with hx | hx
              · rw [List.mem_range'_1] at hx
                omega
              · have := hgt' x hx
                omega
          · rw [if_neg hfe] at h
            cases h
            constructor
            · rw [List.pairwise_append]
              refine ⟨List.pairwise_lt_range' _ _, hp, ?_⟩
              intro x hx y hy
              rw [List.mem_range'_1] at hx
              have := hgt' y hy
              omega
            · intro x hx lc' hlc'
              cases hlc'
              rcases List.mem_append.mp hx with hx | hx
              · rw [List.mem_range'_1] at hx
                omega
              · have := hgt' x hx
                omega

/-- Every cluster a successful planning run emits lies below
`ceil(N / CLUSTER_SIZE)` provided every range stops at or before `N`. -/
theorem buildClusters_bound : ∀ (rs : List Range64) (last : Option Nat) (l : List Nat)
    (N : Nat), (∀ r ∈ rs, r.stop ≤ N) → buildClusters rs last = .ok l →
    ∀ x ∈ l, x < divide_and_round_up N CLUSTER_SIZE := by
  intro rs
  induction rs with
  | nil =>
    intro last l N _ h
    simp only [buildClusters] at h
    cases h
    simp
  | cons r rs ih =>
    intro last l N hN h
    have hrN : r.stop ≤ N := hN r (by simp)
    have hN' : ∀ r' ∈ rs, r'.stop ≤ N := fun r' hr' => hN r' (by simp [hr'])
    have hmono : divide_and_round_up r.stop CLUSTER_SIZE
        ≤ divide_and_round_up N CLUSTER_SIZE := by
      simp only [divide_and_round_up, CLUSTER_SIZE]
      omega
    cases last with
    | none =>
      simp only [buildClusters] at h
      cases e : buildClusters rs (some (next_last_cluster r)) with
      | error e' => rw [e] at h; cases h
      | ok rest =>
        rw [e] at h
        simp only at h
        cases h
        intro x hx
        rcases List.mem_append.mp hx with hx | hx
        · rw [List.mem_range'_1] at hx
          omega
        · exact ih _ rest N hN' e x hx
    | some lc =>
      simp only [buildClusters] at h
      by_cases hcl : r.start / CLUSTER_SIZE < lc
      · rw [if_pos hcl] at h; cases h
      · rw [if_neg hcl] at h
        cases e : buildClusters rs (some (next_last_cluster r)) with
        | error e' => rw [e] at h; cases h
        | ok rest =>
          rw [e] at h
          simp only at h
          cases h
          intro x hx
          rcases List.mem_append.mp hx with hx | hx
          · rw [List.mem_range'_1] at hx
            omega
          · exact ih _ rest N hN' e x hx

theorem validRanges_start_lt : ∀ (rs : List Range64) (last : Option Nat),
    validRanges rs last = true → ∀ r ∈ rs, r.start < r.stop := by
  intro rs
  induction rs with
  | nil => intro last _ r hr; cases hr
  | cons r0 rs ih =>
    intro last hv r hr
    simp only [validRanges, Bool.and_eq_true, decide_eq_true_eq] at hv
    obtain ⟨⟨h1, -⟩, h3⟩ := hv
    rcases List.mem_cons.mp hr with rfl | hr
    · exact h1
    · exact ih _ h3 r hr

theorem validRanges_ok : ∀ (rs : List Range64) (last : Option Nat),
    validRanges rs last = true → ∃ l, buildClusters rs last = .ok l := by
  intro rs
  induction rs with
  | nil => intro last _; exact ⟨[], rfl⟩
  | cons r rs ih =>
    intro last hv
    simp only [validRanges, Bool.and_eq_true, decide_eq_true_eq] at hv
    obtain ⟨⟨h1, h2⟩, h3⟩ := hv
    have hnl : next_last_cluster r = divide_and_round_up r.stop CLUSTER_SIZE - 1 :=
      next_last_cluster_eq h1
    obtain ⟨rest, hrest⟩ := ih (some (divide_and_round_up r.stop CLUSTER_SIZE - 1)) h3
    cases last with
    | none =>
      cases e : buildClusters (r :: rs) none with
      | ok l => exact ⟨l, rfl⟩
      | error err =>
        exfalso
        simp only [buildClusters] at e
        rw [hnl, hrest] at e
        cases e
    | some lc =>
      have hle : lc ≤ r.start / CLUSTER_SIZE := by
        simp only [decide_eq_true_eq] at h2
        exact h2
      cases e : buildClusters (r :: rs) (some lc) with
      | ok l => exact ⟨l, rfl⟩
      | error err =>
        exfalso
        simp only [buildClusters] at e
        rw [if_neg (by omega), hnl, hrest] at e
        cases e

/-- Inverting one successful step of the planner's cluster loop. -/
theorem buildClusters_cons_ok {r : Range64} {rs : List Range64} {last : Option Nat}
    {l : List Nat} (h : buildClusters (r :: rs) last = .ok l) :
    ∃ rest, buildClusters rs (some (next_last_cluster r)) = .ok rest ∧
      ∀ lc, last = some lc → lc ≤ r.start / CLUSTER_SIZE := by
  cases last with
  | none =>
    simp only [buildClusters] at h
    cases e : buildClusters rs (some (next_last_cluster r)) with
    | error e' => rw [e] at h; cases h
    | ok rest => exact ⟨rest, rfl, fun lc hlc => by cases hlc⟩
  | some lc =>
    simp only [buildClusters] at h
    by_cases hcl : r.start / CLUSTER_SIZE < lc
    · rw [if_pos hcl] at h; cases h
    · rw [if_neg hcl] at h
      cases e : buildClusters rs (some (next_last_cluster r)) with
      | error e' => rw [e] at h; cases h
      | ok rest =>
        exact ⟨rest, rfl, fun lc' hlc' => by cases hlc'; omega⟩

/-- A successful planning run has no overlap beyond the boundary allowance. -/
theorem buildClusters_ok_not_overlap : ∀ (rs : List Range64) (last : Option Nat)
    (l : List Nat), (∀ r ∈ rs, r.start < r.stop) → buildClusters rs last = .ok l →
    hasOverlap rs = false := by
  intro rs
  induction rs with
  | nil => intro last l _ _; rfl
  | cons r1 rest ih =>
    intro last l hv h
    cases rest with
    | nil => rfl
    | cons r2 rs2 =>
      have h1 : r1.start < r1.stop := hv r1 (by simp)
      have hv2 : ∀ r ∈ r2 :: rs2, r.start < r.stop :=
        fun r hr => hv r (List.mem_cons_of_mem r1 hr)
      obtain ⟨rest1, hrest1, -⟩ := buildClusters_cons_ok h
      obtain ⟨rest2, hrest2, hchk⟩ := buildClusters_cons_ok hrest1
      have hc2 := hchk (next_last_cluster r1) rfl
      rw [next_last_cluster_eq h1] at hc2
      have htail := ih (some (next_last_cluster r1)) rest1 hv2 hrest1
      simp only [hasOverlap, Bool.or_eq_false_iff, decide_eq_false_iff_not]
      exact ⟨by omega, htail⟩

theorem hasOverlap_error (rs : List Range64) (last : Option Nat)
    (hv : ∀ r ∈ rs, r.start < r.stop) (hov : hasOverlap rs = true) :
    buildClusters rs last = .error .notSorted := by
  cases e : buildClusters rs last with
  | ok l =>
    have hf := buildClusters_ok_not_overlap rs last l hv e
    rw [hov] at hf
    cases hf
  | error err =>
    cases err
    rfl

/-- C7: a range sequence of nonempty ranges in which some range starts in a
cluster strictly before the previous range's last covered cluster (true
overlap beyond the shared-boundary allowance) is rejected by the planner with
the ordering error; since `new` fails, no plan exists and no output byte is
ever produced (both encoders take the plan as input). -/
theorem c7_overlap_rejected (N : Nat) (ranges : List Range64)
    (hv : ∀ r ∈ ranges, r.start < r.stop) (hov : hasOverlap ranges = true) :
    StreamingQcow2Writer.new N ranges = .error .notSorted := by
  unfold StreamingQcow2Writer.new
  rw [hasOverlap_error ranges none hv hov]
  rfl

/-- Witness for C7: the second range starts two clusters before the first
range's last covered cluster. -/
theorem c7_overlap_rejected_witness :
    StreamingQcow2Writer.new 200000 [⟨0, 131073⟩, ⟨0, 65536⟩] = .error .notSorted :=
  c7_overlap_rejected 200000 _ (by decide) (by decide)

/-- C3 (amended): for every input size `N` and every valid range sequence
(each range has `start < end`, ranges sorted, no overlap beyond the
one-cluster boundary allowance) whose ranges additionally lie within the
input (`end ≤ N`), the planner succeeds and its data-cluster list is strictly
increasing (hence duplicate-free, a shared boundary cluster appearing exactly
once) with every element in `[0, ceil(N / CLUSTER_SIZE))`. -/
theorem c3_data_cluster_list_sorted (N : Nat) (ranges : List Range64)
    (hv : validRanges ranges none = true) (hN : ∀ r ∈ ranges, r.stop ≤ N) :
    ∃ w, StreamingQcow2Writer.new N ranges = .ok w ∧
      w.data_clusters.Pairwise (· < ·) ∧
      ∀ x ∈ w.data_clusters, x < divide_and_round_up N CLUSTER_SIZE := by
  obtain ⟨l, hl⟩ := validRanges_ok ranges none hv
  have hvs := validRanges_start_lt ranges none hv
  obtain ⟨hp, -⟩ := buildClusters_sorted ranges none l hvs hl
  have hb := buildClusters_bound ranges none l N hN hl
  refine ⟨mkWriter N l, ?_, hp, hb⟩
  unfold StreamingQcow2Writer.new
  rw [hl]
  rfl

/-- Witness for C3 at two adjacent ranges sharing a mid-cluster boundary. -/
theorem c3_data_cluster_list_sorted_witness :
    ∃ w, StreamingQcow2Writer.new 131072 [⟨0, 65537⟩, ⟨65537, 131072⟩] = .ok w ∧
      w.data_clusters.Pairwise (· < ·) ∧
      ∀ x ∈ w.data_clusters, x < divide_and_round_up 131072 CLUSTER_SIZE :=
  c3_data_cluster_list_sorted 131072 _ (by decide) (by decide)

/-- C3 counterexample: for input size `N = 0` the single range `[0, 1)`
satisfies the claim's validity conditions (nonempty, trivially sorted and
non-overlapping), yet the planner emits data cluster `0`, which does not lie
in `[0, ceil(0 / CLUSTER_SIZE)) = [0, 0)`: the claim as stated is false
without the added `end ≤ N` hypothesis. -/
theorem c3_data_cluster_bound_cex :
    validRanges [⟨0, 1⟩] none = true ∧
    StreamingQcow2Writer.new 0 [⟨0, 1⟩] = .ok (mkWriter 0 [0]) ∧
    ¬ (∀ x ∈ (mkWriter 0 [0]).data_clusters, x < divide_and_round_up 0 CLUSTER_SIZE) := by
  refine ⟨by decide, by rfl, ?_⟩
  intro hall
  have h0 := hall 0 (by decide)
  simp only [divide_and_round_up, CLUSTER_SIZE] at h0
  omega

theorem mappingLookup_aux_none (dcs : List Nat) (g fdc : Nat) :
    ∀ (n : Nat) (acc : Option Nat), (∀ i, i < n → ¬ dcs[i]? = some g) →
      (List.range n).foldl
        (fun acc host => if dcs[host]? = some g then some (host + fdc) else acc) acc
        = acc := by
  intro n
  induction n with
  | zero => intro acc _; rfl
  | succ m ih =>
    intro acc hno
    rw [List.range_succ, List.foldl_append]
    simp only [List.foldl_cons, List.foldl_nil]
    rw [if_neg (hno m (by omega))]
    exact ih acc (fun i hi => hno i (by omega))

theorem mappingLookup_aux_some (dcs : List Nat) (g fdc p : Nat) (hp : dcs[p]? = some g)
    (huniq : ∀ i, dcs[i]? = some g → i = p) :
    ∀ (n : Nat) (acc : Option Nat), p < n →
      (List.range n).foldl
        (fun acc host => if dcs[host]? = some g then some (host + fdc) else acc) acc
        = some (p + fdc) := by
  intro n
  induction n with
  | zero => intro acc h; omega
  | succ m ih =>
    intro acc hpm
    rw [List.range_succ, List.foldl_append]
    simp only [List.foldl_cons, List.foldl_nil]
    by_cases hm : p = m
    · subst hm
      rw [if_pos hp]
    · have hne : ¬ dcs[m]? = some g := fun hc => hm ((huniq m hc).symm)
      rw [if_neg hne]
      exact ih acc (by omega)

theorem mappingLookup_eq_some {dcs : List Nat} {g p : Nat} (fdc : Nat)
    (hn : dcs.Nodup) (hp : dcs[p]? = some g) :
    mappingLookup dcs fdc g = some (p + fdc) := by
  unfold mappingLookup
  have hplen : p < dcs.length := by
    rcases List.getElem?_eq_some_iff.mp hp with ⟨hlt, -⟩
    exact hlt
  refine mappingLookup_aux_some dcs g fdc p hp ?_ dcs.length none hplen
  intro i hi
  have hilen : i < dcs.length := by
    rcases List.getElem?_eq_some_iff.mp hi with ⟨hlt, -⟩
    exact hlt
  exact List.getElem?_inj hilen hn (hi.trans hp.symm)

theorem mappingLookup_eq_none {dcs : List Nat} {g : Nat} (fdc : Nat) (hg : g ∉ dcs) :
    mappingLookup dcs fdc g = none := by
  unfold mappingLookup
  refine mappingLookup_aux_none dcs g fdc dcs.length none ?_
  intro i _ hc
  exact hg (List.getElem?_mem hc)

theorem l2_table_entries_getElem_lt (w : StreamingQcow2Writer) {g : Nat}
    (hg : g < w.total_guest_clusters) :
    (l2_table_entries w)[g]? = some (l2_entry w g) := by
  unfold l2_table_entries
  rw [List.getElem?_append_left (by simp [hg]), List.getElem?_map,
    List.getElem?_range hg]
  rfl

theorem l2_table_entries_getElem_pad (w : StreamingQcow2Writer) {g : Nat}
    (hg : w.total_guest_clusters ≤ g) (hlen : g < (l2_table_entries w).length) :
    (l2_table_entries w)[g]? = some 0 := by
  unfold l2_table_entries at hlen ⊢
  have hlen1 : (List.map (l2_entry w) (List.range w.total_guest_clusters)).length
      = w.total_guest_clusters := by simp
  simp only [List.length_append, List.length_map, List.length_range,
    List.length_replicate] at hlen
  rw [List.getElem?_append_right (by rw [hlen1]; exact hg), List.getElem?_replicate,
    hlen1, if_pos (by omega)]

/-- C1: for every plan the planner produces from nonempty ranges, and for each
guest cluster index `g` in `[0, ceil(N / CLUSTER_SIZE))`: if `g` appears in
the data-cluster list at position `p`, the L2 entry for `g` is the value
`CLUSTER_SIZE * (first_data_cluster + p)` with bit 63 set; if `g` does not
appear in the list, the L2 entry for `g` is zero; and the trailing L2 entries
beyond the last guest cluster up to the cluster boundary are zero. -/
theorem c1_l2_mapping (N : Nat) (ranges : List Range64) (w : StreamingQcow2Writer)
    (hv : ∀ r ∈ ranges, r.start < r.stop)
    (h : StreamingQcow2Writer.new N ranges = .ok w) :
    (∀ g p, w.data_clusters[p]? = some g → g < w.total_guest_clusters →
      (l2_table_entries w)[g]? =
        some (CLUSTER_SIZE * (w.first_data_cluster + p) ||| 1 <<< 63)) ∧
    (∀ g, g < w.total_guest_clusters → g ∉ w.data_clusters →
      (l2_table_entries w)[g]? = some 0) ∧
    (∀ g, w.total_guest_clusters ≤ g → g < (l2_table_entries w).length →
      (l2_table_entries w)[g]? = some 0) := by
  obtain ⟨dcs, hbc, rfl⟩ := new_ok_iff.mp h
  have hd : (mkWriter N dcs).data_clusters = dcs := rfl
  obtain ⟨hp, -⟩ := buildClusters_sorted ranges none dcs hv hbc
  have hnd : dcs.Nodup := hp.nodup
  refine ⟨?_, ?_, ?_⟩
  · intro g p hgp hg
    rw [l2_table_entries_getElem_lt _ hg]
    unfold l2_entry
    rw [hd] at hgp ⊢
    rw [mappingLookup_eq_some (mkWriter N dcs).first_data_cluster hnd hgp]
    simp only [Nat.zero_shiftLeft, Nat.or_zero]
    have : (p + (mkWriter N dcs).first_data_cluster) * CLUSTER_SIZE
        = CLUSTER_SIZE * ((mkWriter N dcs).first_data_cluster + p) := by ring
    rw [this]
  · intro g hg hnot
    rw [l2_table_entries_getElem_lt _ hg]
    unfold l2_entry
    rw [hd] at hnot ⊢
    rw [mappingLookup_eq_none (mkWriter N dcs).first_data_cluster hnot]
  · intro g hg hlen
    exact l2_table_entries_getElem_pad _ hg hlen

/-- Witness for C1 at the plan for a two-cluster input whose first cluster is
the only data cluster. -/
theorem c1_l2_mapping_witness :
    (l2_table_entries (mkWriter 131072 [0]))[0]? =
      some (CLUSTER_SIZE * ((mkWriter 131072 [0]).first_data_cluster + 0) ||| 1 <<< 63) :=
  (c1_l2_mapping 131072 [⟨0, 65536⟩] (mkWriter 131072 [0])
    (by decide) (by rfl)).1 0 0 (by rfl) (by decide)

/-- C5: for every plan, the refcount-block region contains exactly
`total_clusters` 16-bit entries equal to 1, contiguous from index 0, every
following entry up to the block-cluster boundary equal to 0 (the region is a
whole number of block clusters of `CLUSTER_SIZE / 2` entries each), and
consequently the sum of all refcount entries equals `total_clusters`. -/
theorem c5_refcount_blocks (w : StreamingQcow2Writer) :
    (∀ i, i < w.total_clusters → (refcount_block_entries w)[i]? = some 1) ∧
    (∀ i, w.total_clusters ≤ i → i < (refcount_block_entries w).length →
      (refcount_block_entries w)[i]? = some 0) ∧
    (refcount_block_entries w).length =
      CLUSTER_SIZE / 2 * divide_and_round_up w.total_clusters (CLUSTER_SIZE / 2) ∧
    (refcount_block_entries w).sum = w.total_clusters := by
  refine ⟨?_, ?_, ?_, ?_⟩
  · intro i hi
    unfold refcount_block_entries
    rw [List.getElem?_append_left (by simp [hi]), List.getElem?_replicate, if_pos hi]
  · intro i hi hlen
    unfold refcount_block_entries at hlen ⊢
    simp only [List.length_append, List.length_replicate] at hlen
    rw [List.getElem?_append_right (by simp [hi]), List.getElem?_replicate,
      List.length_replicate, if_pos (by omega)]
  · unfold refcount_block_entries
    simp only [List.length_append, List.length_replicate]
    exact pad_eq_32768 w.total_clusters
  · unfold refcount_block_entries
    rw [List.sum_append, List.sum_const_nat, List.sum_const_nat]
    omega

/-- Witness for C5 at the minimal plan. -/
theorem c5_refcount_blocks_witness :
    (refcount_block_entries (mkWriter 0 []))[0]? = some 1 :=
  (c5_refcount_blocks (mkWriter 0 [])).1 0 (by decide)

theorem flatten_slice (src : List Nat) : ∀ (dcs : List Nat) (i g : Nat),
    dcs[i]? = some g →
    (((dcs.map (readCluster src)).flatten).drop (CLUSTER_SIZE * i)).take CLUSTER_SIZE
      = readCluster src g := by
  intro dcs
  induction dcs with
  | nil => intro i g h; simp at h
  | cons c cs ih =>
    intro i g h
    cases i with
    | zero =>
      rw [List.getElem?_cons_zero] at h
      cases h
      simp only [List.map_cons, List.flatten_cons]
      rw [Nat.mul_zero, List.drop_zero,
        List.take_append_of_le_length (by rw [readCluster_length]),
        List.take_of_length_le (by rw [readCluster_length])]
    | succ j =>
      rw [List.getElem?_cons_succ] at h
      simp only [List.map_cons, List.flatten_cons]
      rw [show CLUSTER_SIZE * (j + 1) = (readCluster src c).length + CLUSTER_SIZE * j by
        rw [readCluster_length]; ring]
      rw [List.drop_append]
      exact ih j g h

/-- C6: `copy_data` handles the data-cluster list in order: block `i` of its
output sits at offset `CLUSTER_SIZE * i` (the output is appended strictly
sequentially, never seeked) and equals the source bytes at offset
`cluster * CLUSTER_SIZE`, zero-filled to a full cluster when the source
yields fewer than `CLUSTER_SIZE` bytes; exactly `CLUSTER_SIZE` bytes are
emitted per list entry. -/
theorem c6_copy_data_sequential (w : StreamingQcow2Writer) (src : List Nat) :
    (copy_data w src).length = CLUSTER_SIZE * w.data_clusters.length ∧
    ∀ i g, w.data_clusters[i]? = some g →
      ((copy_data w src).drop (CLUSTER_SIZE * i)).take CLUSTER_SIZE
        = (src.drop (g * CLUSTER_SIZE)).take CLUSTER_SIZE
          ++ List.replicate
              (CLUSTER_SIZE - ((src.drop (g * CLUSTER_SIZE)).take CLUSTER_SIZE).length) 0 := by
  refine ⟨copy_data_length w src, ?_⟩
  intro i g h
  unfold copy_data
  exact flatten_slice src w.data_clusters i g h

/-- Witness for C6: first (and only) block of a one-cluster copy from a
one-byte source. -/
theorem c6_copy_data_sequential_witness :
    ((copy_data (mkWriter 131072 [0]) [7]).drop (CLUSTER_SIZE * 0)).take CLUSTER_SIZE
      = ([7].drop (0 * CLUSTER_SIZE)).take CLUSTER_SIZE
        ++ List.replicate
            (CLUSTER_SIZE - (([7].drop (0 * CLUSTER_SIZE)).take CLUSTER_SIZE).length) 0 :=
  (c6_copy_data_sequential (mkWriter 131072 [0]) [7]).2 0 0 (by rfl)

/-- C8: for every input size and every data-cluster list, the refcount sizing
iteration starting from `RB = 1, RT = 1` terminates: within `fixed + 3` steps
it reaches a genuine fixed point (recomputing `RB` from the final state
leaves it unchanged), the final `RB` is bounded by `fixed + 2`, and giving the
loop any more fuel does not change its result. -/
theorem c8_refcount_loop_terminates (input_size : Nat) (dcs : List Nat) :
    ∃ rb rt,
      refcountLoop (fixedClusters input_size dcs.length)
        (fixedClusters input_size dcs.length + 3) 1 1 = (rb, rt) ∧
      divide_and_round_up
        ((fixedClusters input_size dcs.length + rt + rb) * 2) CLUSTER_SIZE = rb ∧
      rt = divide_and_round_up (rb * 8) CLUSTER_SIZE ∧
      1 ≤ rb ∧ rb ≤ fixedClusters input_size dcs.length + 2 ∧
      ∀ extra, refcountLoop (fixedClusters input_size dcs.length)
          (fixedClusters input_size dcs.length + 3 + extra) 1 1 = (rb, rt) := by
  obtain ⟨rb, rt, hfuel, hrt, hfp, h1, h2⟩ :=
    refcountLoop_spec (fixedClusters input_size dcs.length)
  exact ⟨rb, rt, hfuel _ le_rfl, hfp, hrt, h1, h2, fun extra => hfuel _ (by omega)⟩

/-- Witness for C8 at the empty plan. -/
theorem c8_refcount_loop_terminates_witness :
    ∃ rb rt, refcountLoop (fixedClusters 0 ([] : List Nat).length)
        (fixedClusters 0 ([] : List Nat).length + 3) 1 1 = (rb, rt) ∧ 1 ≤ rb := by
  obtain ⟨rb, rt, h1, -, -, h4, -⟩ := c8_refcount_loop_terminates 0 []
  exact ⟨rb, rt, h1, h4⟩

/-- C9: for input size `N = 0` with the range `[0, 0)` that `main` supplies
for it, the planner succeeds; the plan has zero guest clusters, an empty
data-cluster list, `L1 = L2 = 0` and `RT = RB = 1`, and
`first_data_cluster = 3` is still `1 + RT + RB + L1 + L2`; the output is the
header cluster plus the minimal refcount metadata only — the mapping-table
and data regions are empty and the whole file is 3 clusters. -/
theorem c9_zero_input :
    StreamingQcow2Writer.new 0 [⟨0, 0⟩] = .ok (mkWriter 0 []) ∧
    (mkWriter 0 []).total_guest_clusters = 0 ∧
    (mkWriter 0 []).data_clusters = [] ∧
    (mkWriter 0 []).l1_clusters = 0 ∧
    l2Tables 0 = 0 ∧
    (mkWriter 0 []).refcount_table_clusters = 1 ∧
    (mkWriter 0 []).first_data_cluster = 1 + 1 + 1 + 0 + 0 ∧
    (mapping_table_bytes (mkWriter 0 [])).length = 0 ∧
    (copy_data (mkWriter 0 []) []).length = 0 ∧
    (output_bytes (mkWriter 0 []) []).length = CLUSTER_SIZE * 3 := by
  have hM : (mapping_table_bytes (mkWriter 0 [])).length = 0 := by
    rw [mapping_region_size]
    decide
  have hR : (refcount_table_bytes (mkWriter 0 [])).length = CLUSTER_SIZE * (1 + 1) :=
    refcount_region_size _ 1 1 (by decide) (by decide)
  have hH := header_bytes_length (mkWriter 0 [])
  have hC : (copy_data (mkWriter 0 []) []).length = 0 := rfl
  refine ⟨by rfl, by decide, rfl, by decide, by decide, by decide, by decide, hM, hC, ?_⟩
  unfold output_bytes write_header_bytes
  simp only [List.length_append]
  rw [hH, hR, hM, hC]
  decide

/-- C10: whenever a range satisfies the `start < end` precondition,
`ceil(end / CLUSTER_SIZE)` is at least 1, so the planner's
`last_cluster = to_cluster - 1` update never wraps; the planner performs no
check for empty ranges, and for an empty range with `end = 0` the computed
`to_cluster` is 0 and the `u64` subtraction wraps to `2^64 - 1` (a panic in a
debug build); the planner still accepts that range without any error. -/
theorem c10_last_cluster_underflow :
    (∀ r : Range64, r.start < r.stop →
      1 ≤ divide_and_round_up r.stop CLUSTER_SIZE ∧
      next_last_cluster r = divide_and_round_up r.stop CLUSTER_SIZE - 1) ∧
    divide_and_round_up 0 CLUSTER_SIZE = 0 ∧
    next_last_cluster ⟨0, 0⟩ = 2 ^ 64 - 1 ∧
    buildClusters [⟨0, 0⟩] none = .ok [] := by
  exact ⟨fun r hr => ⟨to_cluster_ge_one hr, next_last_cluster_eq hr⟩,
    by decide, by decide, by rfl⟩

/-- Witness for C10 at the one-byte range `[0, 1)`. -/
theorem c10_last_cluster_underflow_witness :
    1 ≤ divide_and_round_up (Range64.mk 0 1).stop CLUSTER_SIZE :=
  (c10_last_cluster_underflow.1 ⟨0, 1⟩ (by decide)).1

/-- A value with bit 63 set is non-zero. -/
theorem lor_bit63_ne_zero (a : Nat) : a ||| 1 <<< 63 ≠ 0 := by
  intro h0
  have ht : Nat.testBit (a ||| 1 <<< 63) 63 = false := by
    rw [h0]
    exact Nat.zero_testBit 63
  rw [Nat.testBit_lor] at ht
  have h2 : Nat.testBit (1 <<< 63) 63 = true := by
    rw [Nat.shiftLeft_eq, one_mul]
    exact Nat.testBit_two_pow_self
  rw [h2] at ht
  simp at ht

/-- C4 (code bug): at the failing input `input_size = 1` (one guest cluster,
range `[0, 1)`), the header's 32-bit L1-table-size field is
`floor(G / (CLUSTER_SIZE / 8)) = 0`, while the mapping-table encoder itself
writes `ceil(G / (CLUSTER_SIZE / 8)) = 1` L1 entries, the first of which is
non-zero: the header understates the L1 table written by the same program
whenever `G` is not a multiple of `CLUSTER_SIZE / 8`. -/
theorem c4_header_l1_size_bug :
    StreamingQcow2Writer.new 1 [⟨0, 1⟩] = .ok (mkWriter 1 [0]) ∧
    header_l1_size (mkWriter 1 [0]) = 0 ∧
    divide_and_round_up (mkWriter 1 [0]).total_guest_clusters (CLUSTER_SIZE / 8) = 1 ∧
    (l1_table_entries (mkWriter 1 [0]))[0]? ≠ some 0 := by
  have hget : (l1_table_entries (mkWriter 1 [0]))[0]?
      = some (((mkWriter 1 [0]).l1_offset + (mkWriter 1 [0]).l1_clusters * CLUSTER_SIZE
        + 0 * CLUSTER_SIZE) ||| 1 <<< 63) := by
    simp only [l1_table_entries]
    rw [List.getElem?_append_left
        (by simp only [List.length_map, List.length_range]; decide),
      List.getElem?_map, List.getElem?_range (by decide)]
    rfl
  refine ⟨by rfl, by decide, by decide, ?_⟩
  rw [hget]
  intro h
  injection h with h'
  exact lor_bit63_ne_zero _ h'

end StreamingQcow2
